import Mathlib

/-!
Verification of the MT174 meter-reading program.

The development shallowly embeds the program in Lean:

* the protocol client `MT174.read` (handshake, identification check, BCC
  checksum framing) is modelled over an explicit transport: the line returned
  by the one `readline()` call plus the list of bytes returned by the
  subsequent one-byte `read()` calls; an exhausted list models an empty
  (timed-out) read;
* the datablock parser `MT174.datablock_to_dict` is modelled with an
  executable, backtracking matcher specialised to the source pattern
  `(?:\d-\d:)?(\S+\.\S+\.\d+)(?:\*255)?\((.+)\)` together with Python
  whitespace tokenisation (`str.split()` with no argument) and
  insertion-ordered dictionary update;
* the scheduler (`Scheduler.execute` / `Scheduler.run`) is modelled over
  explicit per-call outcomes (normal return, exception, keyboard interrupt),
  producing the list of consumer invocations and logged errors of each cycle.
-/

/-! ### Protocol client: errors and transcript events -/

/-- The distinct exceptions raised inside the source `MT174.read`.
`bccTypeError` models the `TypeError` raised by `ord(b'')` when the read of
the block-check byte returns no data. -/
inductive ReadErr
  /-- raise Exception("Empty string instead of identification") -/
  | emptyIdent
  /-- raise Exception("No identification message") -/
  | noIdent
  /-- raise Exception("Identification message too short") -/
  | identTooShort
  /-- raise Exception("Empty string instead of data") -/
  | emptyData
  /-- TypeError from ord(b'') when the BCC byte read is empty -/
  | bccTypeError
  /-- raise Exception("Result not OK, try again") -/
  | checksumMismatch
deriving DecidableEq, Repr

/-- Observable transport actions performed by one call of `MT174.read`. -/
inductive Ev
  | openPort
  | writeBytes (msg : List Nat)
  | closePort
deriving DecidableEq, Repr

/-- The transport as seen by one call of `MT174.read`: the reply to the one
`readline()` call, then the stream of bytes handed out by the one-byte
`read()` calls (list exhausted = empty read, i.e. timeout). -/
structure Serial where
  identLine : List Nat
  bytes : List Nat
deriving DecidableEq, Repr

deriving instance DecidableEq for Except

namespace MT174

/-- The hello message b'/?!\r\n' (IEC 62056-21 6.3.1). -/
def helloMsg : List Nat := [47, 63, 33, 13, 10]

/-- The acknowledgement message ACK + b'000\r\n' (IEC 62056-21 6.3.3). -/
def ackMsg : List Nat := [6, 48, 48, 48, 13, 10]

/-- Lines 97-102 of the source: when the reply does not already start with
'/' (47) but contains one, everything before the first '/' is discarded. -/
def stripNoise (message : List Nat) : List Nat :=
  if message.head? ≠ some 47 ∧ 47 ∈ message
  then message.drop (message.indexOf 47) else message

/-- Lines 94-106 of the source: validate the identification reply.
Empty reply is rejected first; then noise before the first '/' is stripped;
then the reply must start with '/' and be at least 7 bytes long. -/
def checkIdent (message : List Nat) : Except ReadErr (List Nat) :=
  if message.length = 0 then Except.error ReadErr.emptyIdent
  else if (stripNoise message).head? ≠ some 47 then Except.error ReadErr.noIdent
  else if (stripNoise message).length < 7 then Except.error ReadErr.identTooShort
  else Except.ok (stripNoise message)

/-- Lines 121-126 of the source: the first while loop.  `curr` is the byte in
hand; while it is not '!' (33) it is XOR-accumulated into `bcc`, appended to
`db`, and the next byte is read; an empty read raises.  Returns the
accumulated bcc, the datablock, and the unconsumed input (the byte in hand on
exit is always '!'). -/
def bodyLoop (curr : Nat) (bcc : Nat) (db : List Nat) (input : List Nat) :
    Except ReadErr (Nat × List Nat × List Nat) :=
  if curr = 33 then Except.ok (bcc, db, input)
  else
    match input with
    | [] => Except.error ReadErr.emptyData
    | b :: rest => bodyLoop b (Nat.xor bcc curr) (db ++ [curr]) rest

/-- Lines 116-126 of the source: read the first byte after STX (empty read
raises), then run the first while loop with `bcc = 0` and an empty block. -/
def startBody (input : List Nat) : Except ReadErr (Nat × List Nat × List Nat) :=
  match input with
  | [] => Except.error ReadErr.emptyData
  | c :: rest => bodyLoop c 0 [] rest

/-- Lines 127-132 of the source: the second while loop.  While the byte in
hand is not ETX (3) it is XOR-accumulated and the next byte is read (empty
read raises); the ETX itself is XOR-accumulated on exit (line 132). -/
def etxLoop (curr : Nat) (bcc : Nat) (input : List Nat) :
    Except ReadErr (Nat × List Nat) :=
  if curr = 3 then Except.ok (Nat.xor bcc 3, input)
  else
    match input with
    | [] => Except.error ReadErr.emptyData
    | b :: rest => etxLoop b (Nat.xor bcc curr) rest

/-- Lines 113-140 of the source: the datablock phase of `read`.  If the first
byte read is not STX (2) — including an empty read — the result is the empty
datablock (only a warning is logged).  Otherwise the two loops run, the
transmitted BCC byte is read (an empty read makes `ord` raise), and the block
is returned only when the accumulated bcc equals the transmitted byte. -/
def readDatablock (input : List Nat) : Except ReadErr (List Nat) :=
  match input with
  | [] => Except.ok []
  | b :: rest =>
    if b = 2 then
      match startBody rest with
      | Except.error e => Except.error e
      | Except.ok (bcc1, db, rest2) =>
        match etxLoop 33 bcc1 rest2 with
        | Except.error e => Except.error e
        | Except.ok (bccF, rest3) =>
          match rest3 with
          | [] => Except.error ReadErr.bccTypeError
          | t :: _ => if bccF = t then Except.ok db else Except.error ReadErr.checksumMismatch
    else Except.ok []

/-- XOR of a list of bytes (the reference block-check value). -/
def bccOf (l : List Nat) : Nat := l.foldl Nat.xor 0

/-- Model of bytes.decode(us-ascii) on the model's byte lists. -/
def asString (l : List Nat) : String := String.mk (l.map (fun n => Char.ofNat n))

/-- The result of one call of `MT174.read` (lines 81-143): validate the
identification line, then read the datablock from the byte stream. -/
def readResult (t : Serial) : Except ReadErr String :=
  match checkIdent t.identLine with
  | Except.error e => Except.error e
  | Except.ok _ => (readDatablock t.bytes).map asString

/-- The transport actions of one call of `MT174.read`: the port is opened on
entry (line 84), the hello message is written, the acknowledgement is written
only when the identification was accepted, and the `finally` block (lines
141-143) closes the port on every exit path. -/
def readTrace (t : Serial) : List Ev :=
  Ev.openPort :: Ev.writeBytes helloMsg ::
    ((match checkIdent t.identLine with
      | Except.error _ => []
      | Except.ok _ => [Ev.writeBytes ackMsg]) ++ [Ev.closePort])

/-- One call of `MT174.read`: its result and its transport transcript. -/
def read (t : Serial) : Except ReadErr String × List Ev :=
  (readResult t, readTrace t)

end MT174

/-! ### Datablock parser -/

namespace MT174

/-- The exact whitespace set of CPython: the characters for which
str.isspace() is true, on which str.split() with no argument splits, and which
the regex class `\s` matches (and `\S` rejects) in str patterns.  These are
U+0009 to U+000D, U+001C to U+001F, U+0020, U+0085, U+00A0, U+1680,
U+2000 to U+200A, U+2028, U+2029, U+202F, U+205F and U+3000. -/
def pyIsSpace (c : Char) : Bool :=
  (0x09 ≤ c.toNat && c.toNat ≤ 0x0d) ||
  (0x1c ≤ c.toNat && c.toNat ≤ 0x20) ||
  c.toNat = 0x85 || c.toNat = 0xa0 || c.toNat = 0x1680 ||
  (0x2000 ≤ c.toNat && c.toNat ≤ 0x200a) ||
  c.toNat = 0x2028 || c.toNat = 0x2029 || c.toNat = 0x202f ||
  c.toNat = 0x205f || c.toNat = 0x3000

/-- Regex class `\S`. -/
def isNonSpace (c : Char) : Bool := !pyIsSpace c

/-- Regex class `.` (no DOTALL flag): any character except a newline. -/
def isDotChar (c : Char) : Bool := c ≠ '\n'

/-- Tokeniser worker: scan the characters once, growing the current token in
`acc`; a whitespace character (or the end of the input) closes the current
token when it is nonempty. -/
def wordsAux : List Char → List Char → List (List Char)
  | [], acc => if acc = [] then [] else [acc]
  | c :: cs, acc =>
    if pyIsSpace c then
      (if acc = [] then wordsAux cs [] else acc :: wordsAux cs [])
    else wordsAux cs (acc ++ [c])

/-- Python `data.split()` with no argument: tokens are the maximal runs of
non-whitespace characters. -/
def words (l : List Char) : List (List Char) := wordsAux l []

/-- Tail `(.+)\)` of the pattern: greedy `.+` with backtracking.  Candidate
value lengths are tried from `n` down to 1; candidate `m` succeeds when the
character right after it is ')' (the pattern ends there, trailing characters
are allowed since the source uses `re.match`). -/
def tailLoop (r : List Char) : Nat → Option (List Char)
  | 0 => none
  | n + 1 =>
    if (r.drop (n + 1)).head? = some ')' then some (r.take (n + 1))
    else tailLoop r n

/-- Pattern piece `\((.+)\)`: a literal '(' then the greedy tail.  The `.+` run cannot cross
a newline, so candidates are bounded by the `isDotChar` run. -/
def parenPart : List Char → Option (List Char)
  | [] => none
  | c :: rest =>
    if c = '(' then tailLoop rest ((rest.takeWhile isDotChar).length) else none

/-- Pattern piece `(?:\*255)?\((.+)\)`: the greedy optional group tries to consume `*255`
first and falls back to not consuming it. -/
def afterG1 (r : List Char) : Option (List Char) :=
  if r.take 4 = ['*', '2', '5', '5'] then
    match parenPart (r.drop 4) with
    | some g => some g
    | none => parenPart r
  else parenPart r

/-- Pattern piece `\d+` (greedy, candidates `n` down to 1) then the rest of the pattern.
`acc` holds the group-1 characters matched so far. -/
def dLoop (s : List Char) (acc : List Char) : Nat → Option (List Char × List Char)
  | 0 => none
  | n + 1 =>
    match afterG1 (s.drop (n + 1)) with
    | some g2 => some (acc ++ s.take (n + 1), g2)
    | none => dLoop s acc n

/-- Second `\S+` (greedy) then `\.` then `\d+` and the rest.  The character
after the `n + 1` candidate characters must be the literal '.'; the digits
then start at offset `n + 2`. -/
def s2Loop (s : List Char) (acc : List Char) : Nat → Option (List Char × List Char)
  | 0 => none
  | n + 1 =>
    if (s.drop (n + 1)).head? = some '.' then
      (match dLoop (s.drop (n + 2)) (acc ++ s.take (n + 1) ++ ['.'])
          (((s.drop (n + 2)).takeWhile Char.isDigit).length) with
       | some res => some res
       | none => s2Loop s acc n)
    else s2Loop s acc n

/-- First `\S+` (greedy) then `\.` and the rest of group 1. -/
def s1Loop (s : List Char) : Nat → Option (List Char × List Char)
  | 0 => none
  | n + 1 =>
    if (s.drop (n + 1)).head? = some '.' then
      (match s2Loop (s.drop (n + 2)) (s.take (n + 1) ++ ['.'])
          (((s.drop (n + 2)).takeWhile isNonSpace).length) with
       | some res => some res
       | none => s1Loop s n)
    else s1Loop s n

/-- Group 1 pattern `(\S+\.\S+\.\d+)` then the rest, anchored at the start of `s`. -/
def matchBody (s : List Char) : Option (List Char × List Char) :=
  s1Loop s ((s.takeWhile isNonSpace).length)

/-- The optional classifier prefix `\d-\d:` at the start of the line. -/
def hasClassMark (s : List Char) : Bool :=
  match s with
  | d1 :: c2 :: d2 :: c4 :: _ => d1.isDigit && c2 = '-' && d2.isDigit && c4 = ':'
  | _ => false

/-- Model of DATABLOCK_REGEX.match(line): the greedy optional prefix `(?:\d-\d:)?` is
tried first, with fallback to matching the body at the start of the line.
Returns the captures (group 1, group 2) of the first match in Python
backtracking order. -/
def matchLine (s : List Char) : Option (List Char × List Char) :=
  if hasClassMark s then
    match matchBody (s.drop 4) with
    | some res => some res
    | none => matchBody s
  else matchBody s

/-- Python dict assignment `d[k] = v`: an existing key keeps its insertion
position and gets the new value; a new key is appended at the end. -/
def dictInsert : List (String × String) → String → String → List (String × String)
  | [], k, v => [(k, v)]
  | (k1, v1) :: rest, k, v =>
    if k1 = k then (k, v) :: rest else (k1, v1) :: dictInsert rest k v

/-- Lines 145-156 of the source: split the payload on whitespace, match each
token against `DATABLOCK_REGEX`, and store group 1 → group 2 in an
insertion-ordered dictionary; tokens that do not match are skipped. -/
def datablock_to_dict (data : String) : List (String × String) :=
  (words data.toList).foldl
    (fun d line =>
      match matchLine line with
      | some p => dictInsert d (String.mk p.1) (String.mk p.2)
      | none => d) []

/-- The (code, value) capture pairs of the matching tokens, in token order. -/
def matchedPairs (data : String) : List (String × String) :=
  (words data.toList).filterMap
    (fun line => (matchLine line).map (fun p => (String.mk p.1, String.mk p.2)))

/-- Lookup in the ordered mapping (first entry with the given code). -/
def lookupVal (code : String) : List (String × String) → Option String
  | [] => none
  | p :: ps => if p.1 = code then some p.2 else lookupVal code ps

/-- Scan a pair list in order, remembering the value of the last pair carrying
the given code: the value of the last matching line. -/
def lastMatch (code : String) (ps : List (String × String)) : Option String :=
  ps.foldl (fun a p => if p.1 = code then some p.2 else a) none

end MT174

/-! ### Scheduler -/

namespace Scheduler

/-- Outcome of one Python call: normal return, an `Exception`, or a
`KeyboardInterrupt`. -/
inductive POutcome
  | ok
  | exc
  | kbint
deriving DecidableEq, Repr

/-- A processor registered with the scheduler: its diagnostic name and the
behaviour of its `process(timestamp, data)` method. -/
structure Consumer where
  name : String
  process : Nat → String → POutcome

/-- What `self.mt174.read()` does in one cycle: return a payload, raise an
`Exception`, or be hit by a `KeyboardInterrupt`. -/
inductive PyResult
  | ok (data : String)
  | exc
  | kbint
deriving DecidableEq, Repr

/-- How one `execute` call ends: normal return, or a re-raised
`KeyboardInterrupt`. -/
inductive ExecOut
  | done
  | interrupted
deriving DecidableEq, Repr

/-- Errors logged by `execute` (lines 215 and 219 of the source). -/
inductive LogEv
  | errorInReader
  | errorInProcessor (name : String)
deriving DecidableEq, Repr

/-- How an observation of `run` ends: a normal `return 0` (interrupt caught),
a normal `return 1` (a non-interrupt exception escaped a cycle), a propagated
exception, or still looping. -/
inductive RunRes
  | returnedZero
  | returnedOne
  | propagatedInterrupt
  | running
deriving DecidableEq, Repr

/-- One consumer invocation: (consumer name, timestamp, payload). -/
abbrev Call := String × Nat × String

/-- How the scheduler sees the result of `MT174.read`: any raised error is an
`Exception` to catch; `KeyboardInterrupt` never originates from the model. -/
def pyResultOfRead : Except ReadErr String → PyResult
  | Except.ok s => PyResult.ok s
  | Except.error _ => PyResult.exc

/-- Lines 206-215 of the source: the processor loop.  Every processor is
invoked with the same (timestamp, data); an `Exception` is caught and logged
and the loop continues; a `KeyboardInterrupt` is re-raised (line 213).
Returns how the loop ended, the invocations made, and the errors logged. -/
def runProcs (ts : Nat) (data : String) : List Consumer → ExecOut × List Call × List LogEv
  | [] => (ExecOut.done, [], [])
  | p :: ps =>
    match p.process ts data with
    | POutcome.ok =>
      let k := runProcs ts data ps
      (k.1, (p.name, ts, data) :: k.2.1, k.2.2)
    | POutcome.exc =>
      let k := runProcs ts data ps
      (k.1, (p.name, ts, data) :: k.2.1, LogEv.errorInProcessor p.name :: k.2.2)
    | POutcome.kbint => (ExecOut.interrupted, [(p.name, ts, data)], [])

/-- Lines 199-219 of the source: one cycle.  A reader `Exception` is caught
and logged and no processor runs; a `KeyboardInterrupt` is re-raised
(lines 212-213 and 216-217). -/
def execute (ts : Nat) (r : PyResult) (ps : List Consumer) :
    ExecOut × List Call × List LogEv :=
  match r with
  | PyResult.ok data => runProcs ts data ps
  | PyResult.exc => (ExecOut.done, [], [LogEv.errorInReader])
  | PyResult.kbint => (ExecOut.interrupted, [], [])

/-- Lines 221-233 of the source: the run loop, observed over a finite list of
cycles (timestamp and reader behaviour of each).  A cycle that re-raises a
`KeyboardInterrupt` reaches the handler at line 229, which catches it and
returns 0; otherwise the loop continues; if no cycle interrupts, the loop is
still running after the observed cycles. -/
def runModel (ps : List Consumer) : List (Nat × PyResult) → RunRes × List Call × List LogEv
  | [] => (RunRes.running, [], [])
  | c :: rest =>
    let e := execute c.1 c.2 ps
    match e.1 with
    | ExecOut.interrupted => (RunRes.returnedZero, e.2.1, e.2.2)
    | ExecOut.done =>
      let k := runModel ps rest
      (k.1, e.2.1 ++ k.2.1, e.2.2 ++ k.2.2)

end Scheduler

/-! ### Concrete data used to instantiate the theorems -/

/-- A transport whose identification reply is valid (starts with '/', 7 bytes)
and whose first data byte (5) is not the start marker. -/
def serialNoStx : Serial := ⟨[47, 73, 83, 75, 53, 13, 10], [5]⟩

/-- A consumer whose `process` raises an `Exception`. -/
def consRaising : Scheduler.Consumer := ⟨"raising-consumer", fun _ _ => Scheduler.POutcome.exc⟩

/-- A consumer whose `process` returns normally. -/
def consNormal : Scheduler.Consumer := ⟨"normal-consumer", fun _ _ => Scheduler.POutcome.ok⟩

/-- A sample payload: a repeated code (last occurrence must win), a second
code, and a token that does not match the pattern. -/
def sampleBlock : String :=
  "1-0:1.8.0*255(11*kWh)\r\n1-0:2.8.0*255(33*kWh)\r\n1-0:1.8.0*255(22*kWh)\r\njunk"

/-! ### Theorems: protocol client -/

namespace MT174

/-- Exit equation of the first while loop: on '!' it stops at once. -/
theorem bodyLoop_exit (bcc : Nat) (db input : List Nat) :
    bodyLoop 33 bcc db input = Except.ok (bcc, db, input) := by
  cases input <;> simp [bodyLoop]

/-- The first while loop consumes exactly the bytes before the first '!',
XOR-accumulating and appending each (the byte in hand included), and stops on
the '!' without accumulating it. -/
theorem bodyLoop_frame (pre : List Nat) :
    ∀ (c bcc : Nat) (db rest : List Nat), c ≠ 33 → 33 ∉ pre →
    bodyLoop c bcc db (pre ++ 33 :: rest) =
      Except.ok (List.foldl Nat.xor bcc (c :: pre), db ++ c :: pre, rest) := by
  induction pre with
  | nil =>
    intro c bcc db rest hc _
    simp [bodyLoop, hc, bodyLoop_exit]
  | cons p ps ih =>
    intro c bcc db rest hc hmem
    have hp : p ≠ 33 := by intro h; exact hmem (by simp [h])
    have hmem2 : 33 ∉ ps := by intro h; exact hmem (List.mem_cons_of_mem _ h)
    have step : bodyLoop c bcc db ((p :: ps) ++ 33 :: rest) =
        bodyLoop p (Nat.xor bcc c) (db ++ [c]) (ps ++ 33 :: rest) := by
      simp [bodyLoop, hc]
    rw [step, ih p (Nat.xor bcc c) (db ++ [c]) rest hp hmem2]
    simp

/-- Reading the body from just after STX: the datablock is exactly the bytes
before the first '!', and the bcc accumulates them. -/
theorem startBody_frame (pre rest : List Nat) (h : 33 ∉ pre) :
    startBody (pre ++ 33 :: rest) = Except.ok (bccOf pre, pre, rest) := by
  cases pre with
  | nil => simp [startBody, bodyLoop_exit, bccOf]
  | cons p ps =>
    have hp : p ≠ 33 := by intro hh; exact h (by simp [hh])
    have h2 : 33 ∉ ps := by intro hh; exact h (List.mem_cons_of_mem _ hh)
    simp only [List.cons_append, startBody]
    rw [bodyLoop_frame ps p 0 [] rest hp h2]
    simp [bccOf]

/-- Exit equation of the second while loop: the ETX is XOR-accumulated. -/
theorem etxLoop_exit (bcc : Nat) (input : List Nat) :
    etxLoop 3 bcc input = Except.ok (Nat.xor bcc 3, input) := by
  cases input <;> simp [etxLoop]

/-- The second while loop XOR-accumulates the byte in hand and every further
byte up to and including the first ETX. -/
theorem etxLoop_frame (tail : List Nat) :
    ∀ (c bcc : Nat) (rest : List Nat), c ≠ 3 → 3 ∉ tail →
    etxLoop c bcc (tail ++ 3 :: rest) =
      Except.ok (Nat.xor (List.foldl Nat.xor bcc (c :: tail)) 3, rest) := by
  induction tail with
  | nil =>
    intro c bcc rest hc _
    simp [etxLoop, hc, etxLoop_exit]
  | cons t ts ih =>
    intro c bcc rest hc hmem
    have ht : t ≠ 3 := by intro hh; exact hmem (by simp [hh])
    have h2 : 3 ∉ ts := by intro hh; exact hmem (List.mem_cons_of_mem _ hh)
    have step : etxLoop c bcc ((t :: ts) ++ 3 :: rest) =
        etxLoop t (Nat.xor bcc c) (ts ++ 3 :: rest) := by
      simp [etxLoop, hc]
    rw [step, ih t (Nat.xor bcc c) rest ht h2]
    simp

/-- C1: for a frame `STX pre ! tail ETX b …` read after the start marker, the
accumulated checksum is the XOR of all payload bytes after the start marker
through the end marker inclusive (`pre ++ '!' :: tail ++ [ETX]`), and the
datablock `pre` is returned iff the transmitted BCC byte `b` equals that XOR;
on mismatch the whole block is discarded and the call fails. -/
theorem read_bcc_check (pre tail : List Nat) (b : Nat) (rest : List Nat)
    (h1 : 33 ∉ pre) (h2 : 3 ∉ tail) :
    readDatablock (2 :: (pre ++ 33 :: (tail ++ 3 :: b :: rest))) =
      (if bccOf (pre ++ 33 :: (tail ++ [3])) = b then Except.ok pre
       else Except.error ReadErr.checksumMismatch) := by
  have hs := startBody_frame pre (tail ++ 3 :: b :: rest) h1
  have he := etxLoop_frame tail 33 (bccOf pre) (b :: rest) (by decide) h2
  have hb : Nat.xor (List.foldl Nat.xor (bccOf pre) (33 :: tail)) 3 =
      bccOf (pre ++ 33 :: (tail ++ [3])) := by
    simp [bccOf, List.foldl_append]
  simp only [readDatablock, hs, he, hb]
  norm_num

/-- Witness for C1 at a concrete frame. -/
theorem read_bcc_check_spot :
    (33 ∉ ([49, 50] : List Nat)) ∧ (3 ∉ ([13, 10] : List Nat)) ∧
    readDatablock (2 :: (([49, 50] : List Nat) ++ 33 :: ([13, 10] ++ 3 :: 38 :: [99]))) =
      (if bccOf (([49, 50] : List Nat) ++ 33 :: ([13, 10] ++ [3])) = 38 then Except.ok [49, 50]
       else Except.error ReadErr.checksumMismatch) :=
  ⟨by decide, by decide, read_bcc_check [49, 50] [13, 10] 38 [99] (by decide) (by decide)⟩

/-- Dropping up to the first occurrence of `a` leaves a list starting with
`a`. -/
theorem drop_indexOf_head (a : Nat) (l : List Nat) (h : a ∈ l) :
    (l.drop (l.indexOf a)).head? = some a := by
  induction l with
  | nil => cases h
  | cons x xs ih =>
    by_cases hx : x = a
    · subst hx
      simp [List.indexOf_cons_self]
    · have hmem : a ∈ xs := by
        rcases List.mem_cons.mp h with h1 | h1
        · exact absurd h1.symm hx
        · exact h1
      have hidx : (x :: xs).indexOf a = (xs.indexOf a) + 1 :=
        List.indexOf_cons_ne _ hx
      rw [hidx, List.drop_succ_cons]
      exact ih hmem

/-- Noise stripping always yields the suffix from the first '/': when the
reply already starts with '/' the source skips the stripping, but dropping
zero bytes is the same list. -/
theorem stripNoise_mem (msg : List Nat) (h : 47 ∈ msg) :
    stripNoise msg = msg.drop (msg.indexOf 47) := by
  unfold stripNoise
  by_cases h0 : msg.head? = some 47
  · rw [if_neg (by simp [h0])]
    cases msg with
    | nil => cases h
    | cons m0 ms =>
      have : m0 = 47 := by simpa using h0
      subst this
      simp [List.indexOf_cons_self]
  · rw [if_pos ⟨h0, h⟩]

/-- When the reply contains no '/', nothing is stripped. -/
theorem stripNoise_not_mem (msg : List Nat) (h : 47 ∉ msg) :
    stripNoise msg = msg := by
  unfold stripNoise
  rw [if_neg (by intro hc; exact h hc.2)]

/-- Full characterisation of the identification check. -/
theorem checkIdent_eq (msg : List Nat) :
    checkIdent msg =
      (if msg = [] then Except.error ReadErr.emptyIdent
       else if 47 ∈ msg then
         (if 7 ≤ (msg.drop (msg.indexOf 47)).length
          then Except.ok (msg.drop (msg.indexOf 47))
          else Except.error ReadErr.identTooShort)
       else Except.error ReadErr.noIdent) := by
  by_cases h1 : msg = []
  · subst h1; simp [checkIdent]
  · have hlen : ¬ msg.length = 0 := by
      intro hc; exact h1 (List.length_eq_zero.mp hc)
    by_cases h2 : (47 : Nat) ∈ msg
    · have hs := stripNoise_mem msg h2
      have hh : (stripNoise msg).head? = some 47 := by
        rw [hs]; exact drop_indexOf_head 47 msg h2
      unfold checkIdent
      rw [if_neg hlen, if_neg (by simp [hh]), hs, if_neg h1, if_pos h2]
      by_cases h3 : (msg.drop (msg.indexOf 47)).length < 7
      · rw [if_pos h3, if_neg (by omega)]
      · rw [if_neg h3, if_pos (by omega)]
    · have hs := stripNoise_not_mem msg h2
      have hhead : msg.head? ≠ some 47 := by
        intro hc
        cases msg with
        | nil => cases hc
        | cons m0 ms =>
          have : m0 = 47 := by simpa using hc
          exact h2 (by simp [this])
      unfold checkIdent
      rw [if_neg hlen, if_pos (by rw [hs]; exact hhead), if_neg h1, if_neg h2]

/-- C3: for a non-empty identification reply, exactly the bytes before the
first '/' are stripped (the '/' is kept) and validation succeeds iff the
remainder starts with '/' and is at least 7 bytes long, otherwise `read`
fails with the corresponding malformed-identification error; the empty reply
fails with the distinct no-response error `emptyIdent`. -/
theorem ident_validation (msg : List Nat) :
    (checkIdent msg =
      (if msg = [] then Except.error ReadErr.emptyIdent
       else if 47 ∈ msg then
         (if 7 ≤ (msg.drop (msg.indexOf 47)).length
          then Except.ok (msg.drop (msg.indexOf 47))
          else Except.error ReadErr.identTooShort)
       else Except.error ReadErr.noIdent)) ∧
    (∀ r, checkIdent msg = Except.ok r → r.head? = some 47 ∧ 7 ≤ r.length) ∧
    (∀ t : Serial, t.identLine = msg → ∀ e, checkIdent msg = Except.error e →
      (read t).1 = Except.error e) := by
  refine ⟨checkIdent_eq msg, ?_, ?_⟩
  · intro r hr
    rw [checkIdent_eq msg] at hr
    by_cases h1 : msg = []
    · rw [if_pos h1] at hr; cases hr
    · rw [if_neg h1] at hr
      by_cases h2 : (47 : Nat) ∈ msg
      · rw [if_pos h2] at hr
        by_cases h3 : 7 ≤ (msg.drop (msg.indexOf 47)).length
        · rw [if_pos h3] at hr
          cases hr
          exact ⟨drop_indexOf_head 47 msg h2, h3⟩
        · rw [if_neg h3] at hr; cases hr
      · rw [if_neg h2] at hr; cases hr
  · intro t ht e he
    simp [read, readResult, ht, he]

/-- Witness for C3 at a concrete reply with one noise byte. -/
theorem ident_validation_spot :
    checkIdent [88, 47, 73, 83, 75, 53, 13, 10] = Except.ok [47, 73, 83, 75, 53, 13, 10] ∧
    ([47, 73, 83, 75, 53, 13, 10] : List Nat).head? = some 47 ∧
    7 ≤ ([47, 73, 83, 75, 53, 13, 10] : List Nat).length :=
  ⟨by decide, (ident_validation [88, 47, 73, 83, 75, 53, 13, 10]).2.1 _ (by decide)⟩

end MT174

namespace MT174

/-- C5: every call of `read` opens the transport first and closes it last,
whatever the outcome (successful payload or any protocol error): the
transcript always has the shape `openPort :: … ++ [closePort]`. -/
theorem read_opens_closes (t : Serial) :
    (read t).2.head? = some Ev.openPort ∧
    (read t).2.getLast? = some Ev.closePort ∧
    ∃ mid, (read t).2 = Ev.openPort :: (mid ++ [Ev.closePort]) := by
  refine ⟨rfl, ?_, ?_⟩
  · cases h : checkIdent t.identLine with
    | error e => simp only [read, readTrace, h]; rfl
    | ok s => simp only [read, readTrace, h]; rfl
  · cases h : checkIdent t.identLine with
    | error e =>
      refine ⟨[Ev.writeBytes helloMsg], ?_⟩
      simp [read, readTrace, h]
    | ok s =>
      refine ⟨[Ev.writeBytes helloMsg, Ev.writeBytes ackMsg], ?_⟩
      simp [read, readTrace, h]

/-- Witness for C5 on a concrete transport. -/
theorem read_opens_closes_spot :
    (read serialNoStx).2.head? = some Ev.openPort ∧
    (read serialNoStx).2.getLast? = some Ev.closePort ∧
    ∃ mid, (read serialNoStx).2 = Ev.openPort :: (mid ++ [Ev.closePort]) :=
  read_opens_closes serialNoStx

end MT174

namespace Scheduler

/-- When no processor is hit by a `KeyboardInterrupt`, the loop of `execute`
invokes every processor in registration order with the same (timestamp, data)
pair, ends normally, and logs an error for every processor that raised. -/
theorem runProcs_no_interrupt (ts : Nat) (data : String) :
    ∀ ps : List Consumer, (∀ p ∈ ps, p.process ts data ≠ POutcome.kbint) →
    (runProcs ts data ps).1 = ExecOut.done ∧
    (runProcs ts data ps).2.1 = ps.map (fun p => (p.name, ts, data)) ∧
    (∀ p ∈ ps, p.process ts data = POutcome.exc →
      LogEv.errorInProcessor p.name ∈ (runProcs ts data ps).2.2) := by
  intro ps
  induction ps with
  | nil => intro _; refine ⟨rfl, rfl, ?_⟩; intro p hp; cases hp
  | cons p ps ih =>
    intro hk
    have hp : p.process ts data ≠ POutcome.kbint := hk p (List.mem_cons_self _ _)
    have hrest : ∀ q ∈ ps, q.process ts data ≠ POutcome.kbint :=
      fun q hq => hk q (List.mem_cons_of_mem _ hq)
    rcases ih hrest with ⟨ih1, ih2, ih3⟩
    cases hc : p.process ts data with
    | ok =>
      refine ⟨?_, ?_, ?_⟩
      · simpa [runProcs, hc] using ih1
      · simp [runProcs, hc, ih2]
      · intro q hq hqexc
        rcases List.mem_cons.mp hq with hq1 | hq1
        · subst hq1; rw [hc] at hqexc; cases hqexc
        · simpa [runProcs, hc] using ih3 q hq1 hqexc
    | exc =>
      refine ⟨?_, ?_, ?_⟩
      · simpa [runProcs, hc] using ih1
      · simp [runProcs, hc, ih2]
      · intro q hq hqexc
        rcases List.mem_cons.mp hq with hq1 | hq1
        · subst hq1; simp [runProcs, hc]
        · simp only [runProcs, hc]
          exact List.mem_cons_of_mem _ (ih3 q hq1 hqexc)
    | kbint => exact absurd hc hp

/-- C6: if a consumer raises an exception, `execute` catches and logs it and
still invokes every consumer, in registration order, with the same
(timestamp, payload) pair; the cycle ends normally, so the failure does not
stop future cycles of the run loop. -/
theorem consumer_isolation (ts : Nat) (data : String) (ps : List Consumer)
    (hk : ∀ p ∈ ps, p.process ts data ≠ POutcome.kbint)
    (rest : List (Nat × PyResult)) :
    (runProcs ts data ps).2.1 = ps.map (fun p => (p.name, ts, data)) ∧
    (runProcs ts data ps).1 = ExecOut.done ∧
    (∀ p ∈ ps, p.process ts data = POutcome.exc →
      LogEv.errorInProcessor p.name ∈ (runProcs ts data ps).2.2) ∧
    (runModel ps ((ts, PyResult.ok data) :: rest)).1 = (runModel ps rest).1 := by
  rcases runProcs_no_interrupt ts data ps hk with ⟨h1, h2, h3⟩
  refine ⟨h2, h1, h3, ?_⟩
  simp [runModel, execute, h1]

/-- Witness for C6: the first consumer raises, the second still runs with the
same pair. -/
theorem consumer_isolation_spot :
    (∀ p ∈ [consRaising, consNormal], p.process 1 ("data") ≠ POutcome.kbint) ∧
    (runProcs 1 ("data") [consRaising, consNormal]).2.1 =
      [("raising-consumer", 1, "data"), ("normal-consumer", 1, "data")] ∧
    (runProcs 1 ("data") [consRaising, consNormal]).1 = ExecOut.done :=
  ⟨by decide, by
    have h := consumer_isolation 1 ("data") [consRaising, consNormal] (by decide) []
    exact h.1.trans (by decide), by
    have h := consumer_isolation 1 ("data") [consRaising, consNormal] (by decide) []
    exact h.2.1⟩

/-- C7: a cycle in which the reader raises an exception logs it, invokes no
consumer at all, and the run loop proceeds with the remaining cycles
unchanged. -/
theorem reader_failure_isolated (ts : Nat) (ps : List Consumer)
    (rest : List (Nat × PyResult)) :
    execute ts PyResult.exc ps = (ExecOut.done, [], [LogEv.errorInReader]) ∧
    (runModel ps ((ts, PyResult.exc) :: rest)).1 = (runModel ps rest).1 ∧
    (runModel ps ((ts, PyResult.exc) :: rest)).2.1 = (runModel ps rest).2.1 := by
  refine ⟨rfl, ?_, ?_⟩ <;> simp [runModel, execute]

/-- Witness for C7 on a concrete cycle list. -/
theorem reader_failure_isolated_spot :
    execute 5 PyResult.exc [consNormal] = (ExecOut.done, [], [LogEv.errorInReader]) ∧
    (runModel [consNormal] [(5, PyResult.exc)]).1 = (runModel [consNormal] []).1 ∧
    (runModel [consNormal] [(5, PyResult.exc)]).2.1 = (runModel [consNormal] []).2.1 :=
  reader_failure_isolated 5 [consNormal] []

end Scheduler

namespace MT174

/-- C4: if the byte read after the acknowledgement is not the start marker
(including an empty, timed-out read), `read` succeeds with an empty payload,
and the scheduler then dispatches that empty payload to every consumer. -/
theorem no_stx_empty_payload (t : Serial) (s0 : List Nat)
    (hid : checkIdent t.identLine = Except.ok s0)
    (hb : t.bytes.head? ≠ some 2) (ts : Nat) (ps : List Scheduler.Consumer)
    (hk : ∀ p ∈ ps, p.process ts ("") ≠ Scheduler.POutcome.kbint) :
    (read t).1 = Except.ok ("") ∧
    (Scheduler.execute ts (Scheduler.pyResultOfRead (read t).1) ps).2.1 =
      ps.map (fun p => (p.name, ts, ("" : String))) := by
  have hdb : readDatablock t.bytes = Except.ok [] := by
    cases hb2 : t.bytes with
    | nil => rfl
    | cons x xs =>
      have hx : x ≠ 2 := by
        rw [hb2] at hb; simpa using hb
      simp [readDatablock, hx]
  have h1 : (read t).1 = Except.ok ("") := by
    simp only [read, readResult, hid, hdb, Except.map]
    rfl
  refine ⟨h1, ?_⟩
  rw [h1]
  have h2 : Scheduler.pyResultOfRead (Except.ok ("")) = Scheduler.PyResult.ok ("") := rfl
  rw [h2]
  have h3 : Scheduler.execute ts (Scheduler.PyResult.ok ("")) ps =
      Scheduler.runProcs ts ("") ps := rfl
  rw [h3]
  exact (Scheduler.runProcs_no_interrupt ts ("") ps hk).2.1

/-- Witness for C4: a transport with a valid identification whose first data
byte is 5, and one normally-returning consumer. -/
theorem no_stx_empty_payload_spot :
    checkIdent serialNoStx.identLine = Except.ok [47, 73, 83, 75, 53, 13, 10] ∧
    serialNoStx.bytes.head? ≠ some 2 ∧
    (read serialNoStx).1 = Except.ok ("") ∧
    (Scheduler.execute 7 (Scheduler.pyResultOfRead (read serialNoStx).1)
        [consNormal]).2.1 = [("normal-consumer", 7, ("" : String))] :=
  ⟨by decide, by decide,
   (no_stx_empty_payload serialNoStx [47, 73, 83, 75, 53, 13, 10] (by decide) (by decide) 7
      [consNormal] (by decide)).1,
   by
    have h := no_stx_empty_payload serialNoStx [47, 73, 83, 75, 53, 13, 10] (by decide)
      (by decide) 7 [consNormal] (by decide)
    exact h.2.trans (by decide)⟩

end MT174

namespace Scheduler

/-- C8 counterexample: a `KeyboardInterrupt` during a cycle makes `run`
return 0 normally — the interrupt is caught by `run` (source line 229), not
propagated to the caller, refuting the claim that it is propagated. -/
theorem run_interrupt_swallowed :
    (runModel [] [(0, PyResult.kbint)]).1 = RunRes.returnedZero ∧
    RunRes.returnedZero ≠ RunRes.propagatedInterrupt :=
  ⟨rfl, by decide⟩

/-- C8 (amended): a `KeyboardInterrupt` during a cycle terminates the run
loop, but `run` catches it and returns 0 to the caller (it is not
propagated); and it is the only condition that terminates the loop — over any
observed cycles the loop either is still running or has returned 0, and it
has returned iff some cycle was interrupted. -/
theorem run_terminates_only_on_interrupt (ps : List Consumer)
    (cycles : List (Nat × PyResult)) :
    ((runModel ps cycles).1 = RunRes.returnedZero ∨
      (runModel ps cycles).1 = RunRes.running) ∧
    ((runModel ps cycles).1 = RunRes.returnedZero ↔
      ∃ c ∈ cycles, (execute c.1 c.2 ps).1 = ExecOut.interrupted) := by
  induction cycles with
  | nil => simp [runModel]
  | cons c rest ih =>
    cases he : (execute c.1 c.2 ps).1 with
    | interrupted =>
      constructor
      · left
        simp [runModel, he]
      · constructor
        · intro _
          exact ⟨c, List.mem_cons_self _ _, he⟩
        · intro _
          simp [runModel, he]
    | done =>
      have hstep : (runModel ps (c :: rest)).1 = (runModel ps rest).1 := by
        simp [runModel, he]
      rw [hstep]
      refine ⟨ih.1, ?_⟩
      rw [ih.2]
      constructor
      · rintro ⟨q, hq, hint⟩
        exact ⟨q, List.mem_cons_of_mem _ hq, hint⟩
      · rintro ⟨q, hq, hint⟩
        rcases List.mem_cons.mp hq with hq1 | hq1
        · subst hq1; rw [he] at hint; cases hint
        · exact ⟨q, hq1, hint⟩

/-- Witness for the amended C8 at a concrete run: an interrupt in the second
cycle ends the run with a normal return 0. -/
theorem run_terminates_only_on_interrupt_spot :
    (runModel [consNormal] [(0, PyResult.ok ("x")), (1, PyResult.kbint)]).1 =
      RunRes.returnedZero ∧
    ∃ c ∈ [((0 : Nat), PyResult.ok ("x")), (1, PyResult.kbint)],
      (execute c.1 c.2 [consNormal]).1 = ExecOut.interrupted := by
  have h := run_terminates_only_on_interrupt [consNormal]
    [(0, PyResult.ok ("x")), (1, PyResult.kbint)]
  have h0 : (runModel [consNormal] [(0, PyResult.ok ("x")), (1, PyResult.kbint)]).1 =
      RunRes.returnedZero := rfl
  exact ⟨h0, h.2.mp h0⟩

end Scheduler

/-! ### Theorems: datablock parser -/

namespace MT174

/-- Looking up after a Python dict assignment: the assigned key now maps to
the new value, every other key is untouched. -/
theorem lookupVal_dictInsert (d : List (String × String)) (k v code : String) :
    lookupVal code (dictInsert d k v) =
      if k = code then some v else lookupVal code d := by
  induction d with
  | nil =>
    by_cases h : k = code <;> simp [dictInsert, lookupVal, h]
  | cons q d ih =>
    obtain ⟨k1, v1⟩ := q
    by_cases h1 : k1 = k
    · subst h1
      by_cases h2 : k1 = code <;> simp [dictInsert, lookupVal, h2]
    · by_cases h2 : k1 = code
      · subst h2
        have hk : k ≠ k1 := fun hh => h1 hh.symm
        simp [dictInsert, h1, lookupVal, hk]
      · simp [dictInsert, h1, lookupVal, h2, ih]

/-- Folding dict assignments and then looking up one code is the same as
scanning the assigned pairs in order and keeping the last value carrying that
code (falling back to the initial dictionary). -/
theorem lookupVal_foldl_dictInsert (code : String) :
    ∀ (ps : List (String × String)) (d : List (String × String)),
    lookupVal code (ps.foldl (fun dd p => dictInsert dd p.1 p.2) d) =
      ps.foldl (fun a p => if p.1 = code then some p.2 else a) (lookupVal code d) := by
  intro ps
  induction ps with
  | nil => intro d; rfl
  | cons p ps ih =>
    intro d
    simp only [List.foldl_cons]
    rw [ih (dictInsert d p.1 p.2), lookupVal_dictInsert]

/-- The parser's fold over tokens equals a fold of dict assignments over the
capture pairs of the matching tokens (unmatched tokens are skipped). -/
theorem datablock_fold_eq (toks : List (List Char)) :
    ∀ d, toks.foldl
        (fun dd line => match matchLine line with
          | some p => dictInsert dd (String.mk p.1) (String.mk p.2)
          | none => dd) d =
      (toks.filterMap (fun line => (matchLine line).map
          (fun p => (String.mk p.1, String.mk p.2)))).foldl
        (fun dd p => dictInsert dd p.1 p.2) d := by
  induction toks with
  | nil => intro d; rfl
  | cons t ts ih =>
    intro d
    cases h : matchLine t <;> simp [List.filterMap_cons, h, ih]

/-- C9: the mapping built by `datablock_to_dict` is determined by processing
the matching lines in order with last-occurrence-wins semantics: looking up a
code yields exactly the value of the last matching line carrying that code
(and `none` when no matching line carries it); unmatched lines are skipped
(they contribute no capture pair), and the function is pure, so re-parsing is
trivially deterministic. -/
theorem datablock_last_wins (data : String) (code : String) :
    lookupVal code (datablock_to_dict data) = lastMatch code (matchedPairs data) ∧
    datablock_to_dict data = datablock_to_dict data := by
  refine ⟨?_, rfl⟩
  unfold datablock_to_dict matchedPairs lastMatch
  rw [datablock_fold_eq, lookupVal_foldl_dictInsert]
  rfl

/-- Witness for C9: the code 1.8.0 occurs on the first and third lines of
`sampleBlock`; the third line's value wins. -/
theorem datablock_last_wins_spot :
    lookupVal ("1.8.0") (datablock_to_dict sampleBlock) = some ("22*kWh") :=
  (datablock_last_wins sampleBlock ("1.8.0")).1.trans (by decide)

end MT174

namespace MT174

/-- Any value returned by the greedy tail is a nonempty selection of the
characters after the '('. -/
theorem tailLoop_sub (r : List Char) :
    ∀ n g, tailLoop r n = some g → g ⊆ r ∧ g ≠ [] := by
  intro n
  induction n with
  | zero => intro g h; simp [tailLoop] at h
  | succ n ih =>
    intro g h
    simp only [tailLoop] at h
    by_cases hc : (r.drop (n + 1)).head? = some ')'
    · rw [if_pos hc] at h
      cases h
      refine ⟨List.take_subset _ _, ?_⟩
      intro hnil
      have hd : r.drop (n + 1) ≠ [] := by intro hh; rw [hh] at hc; cases hc
      rcases List.take_eq_nil_iff.mp hnil with h0 | h0
      · cases h0
      · exact hd (by rw [h0]; rfl)
    · rw [if_neg hc] at h
      exact ih g h

/-- Any group-2 value produced by `\((.+)\)` is a nonempty selection of the
input characters. -/
theorem parenPart_sub (r : List Char) (g : List Char) (h : parenPart r = some g) :
    g ⊆ r ∧ g ≠ [] := by
  cases r with
  | nil => simp [parenPart] at h
  | cons c rest =>
    simp only [parenPart] at h
    by_cases hc : c = '('
    · rw [if_pos hc] at h
      rcases tailLoop_sub rest _ g h with ⟨h1, h2⟩
      exact ⟨fun x hx => List.mem_cons_of_mem _ (h1 hx), h2⟩
    · rw [if_neg hc] at h; cases h

/-- Any group-2 value produced after group 1 is a nonempty selection of the
remaining characters. -/
theorem afterG1_sub (r : List Char) (g : List Char) (h : afterG1 r = some g) :
    g ⊆ r ∧ g ≠ [] := by
  unfold afterG1 at h
  by_cases hc : r.take 4 = ['*', '2', '5', '5']
  · rw [if_pos hc] at h
    cases hp : parenPart (r.drop 4) with
    | some g2 =>
      rw [hp] at h
      have hg : g2 = g := Option.some.inj h
      subst hg
      rcases parenPart_sub (r.drop 4) g2 hp with ⟨h1, h2⟩
      exact ⟨fun x hx => List.drop_subset _ _ (h1 hx), h2⟩
    | none =>
      rw [hp] at h
      exact parenPart_sub r g h
  · rw [if_neg hc] at h
    exact parenPart_sub r g h

/-- Any captures produced by the `\d+` stage: group 1 extends the accumulator
with input characters, group 2 is a nonempty selection of input characters. -/
theorem dLoop_sub (s acc : List Char) :
    ∀ n g1 g2, dLoop s acc n = some (g1, g2) →
      g1 ⊆ acc ++ s ∧ g2 ⊆ s ∧ g2 ≠ [] := by
  intro n
  induction n with
  | zero => intro g1 g2 h; simp [dLoop] at h
  | succ n ih =>
    intro g1 g2 h
    simp only [dLoop] at h
    cases hA : afterG1 (s.drop (n + 1)) with
    | some g =>
      rw [hA] at h
      have hh : (acc ++ s.take (n + 1), g) = (g1, g2) := Option.some.inj h
      cases hh
      rcases afterG1_sub _ _ hA with ⟨h2, h3⟩
      refine ⟨?_, fun x hx => List.drop_subset _ _ (h2 hx), h3⟩
      intro x hx
      rcases List.mem_append.mp hx with hx1 | hx1
      · exact List.mem_append.mpr (Or.inl hx1)
      · exact List.mem_append.mpr (Or.inr (List.take_subset _ _ hx1))
    | none =>
      rw [hA] at h
      exact ih g1 g2 h

/-- A list whose `head?` is a character contains that character. -/
theorem mem_of_head?_char (s : List Char) (n : Nat) (c : Char)
    (hc : (s.drop n).head? = some c) : c ∈ s := by
  apply List.drop_subset n s
  cases hd : s.drop n with
  | nil => rw [hd] at hc; cases hc
  | cons a l =>
    rw [hd] at hc
    have : a = c := by simpa using hc
    simp [hd, this]

/-- Any captures produced by the second `\S+` stage stay within accumulator
and input. -/
theorem s2Loop_sub (s acc : List Char) :
    ∀ n g1 g2, s2Loop s acc n = some (g1, g2) →
      g1 ⊆ acc ++ s ∧ g2 ⊆ s ∧ g2 ≠ [] := by
  intro n
  induction n with
  | zero => intro g1 g2 h; simp [s2Loop] at h
  | succ n ih =>
    intro g1 g2 h
    simp only [s2Loop] at h
    by_cases hc : (s.drop (n + 1)).head? = some '.'
    · rw [if_pos hc] at h
      cases hD : dLoop (s.drop (n + 2)) (acc ++ s.take (n + 1) ++ ['.'])
          (((s.drop (n + 2)).takeWhile Char.isDigit).length) with
      | some res =>
        rw [hD] at h
        have hh : res = (g1, g2) := Option.some.inj h
        subst hh
        rcases dLoop_sub _ _ _ g1 g2 hD with ⟨h1, h2, h3⟩
        have hdropsub : s.drop (n + 2) ⊆ s := List.drop_subset _ _
        have hdot : '.' ∈ s := mem_of_head?_char s (n + 1) '.' hc
        refine ⟨?_, fun x hx => hdropsub (h2 hx), h3⟩
        intro x hx
        have hx2 := h1 hx
        simp only [List.append_assoc, List.mem_append, List.mem_singleton] at hx2
        rcases hx2 with hx1 | hx1 | hx1 | hx1
        · exact List.mem_append.mpr (Or.inl hx1)
        · exact List.mem_append.mpr (Or.inr (List.take_subset _ _ hx1))
        · rw [hx1]; exact List.mem_append.mpr (Or.inr hdot)
        · exact List.mem_append.mpr (Or.inr (hdropsub hx1))
      | none =>
        rw [hD] at h
        exact ih g1 g2 h
    · rw [if_neg hc] at h
      exact ih g1 g2 h

/-- Any captures produced by the first `\S+` stage are selections of the
input characters, with a nonempty group 2. -/
theorem s1Loop_sub (s : List Char) :
    ∀ n g1 g2, s1Loop s n = some (g1, g2) →
      g1 ⊆ s ∧ g2 ⊆ s ∧ g2 ≠ [] := by
  intro n
  induction n with
  | zero => intro g1 g2 h; simp [s1Loop] at h
  | succ n ih =>
    intro g1 g2 h
    simp only [s1Loop] at h
    by_cases hc : (s.drop (n + 1)).head? = some '.'
    · rw [if_pos hc] at h
      cases hS : s2Loop (s.drop (n + 2)) (s.take (n + 1) ++ ['.'])
          (((s.drop (n + 2)).takeWhile isNonSpace).length) with
      | some res =>
        rw [hS] at h
        have hh : res = (g1, g2) := Option.some.inj h
        subst hh
        rcases s2Loop_sub _ _ _ g1 g2 hS with ⟨h1, h2, h3⟩
        have hdropsub : s.drop (n + 2) ⊆ s := List.drop_subset _ _
        have hdot : '.' ∈ s := mem_of_head?_char s (n + 1) '.' hc
        refine ⟨?_, fun x hx => hdropsub (h2 hx), h3⟩
        intro x hx
        have hx2 := h1 hx
        simp only [List.mem_append, List.mem_singleton] at hx2
        rcases hx2 with (hx1 | hx1) | hx1
        · exact List.take_subset _ _ hx1
        · rw [hx1]; exact hdot
        · exact hdropsub hx1
      | none =>
        rw [hS] at h
        exact ih g1 g2 h
    · rw [if_neg hc] at h
      exact ih g1 g2 h

/-- The captures of a match are selections of the line's characters and the
value capture is nonempty. -/
theorem matchLine_sub (s : List Char) (g1 g2 : List Char)
    (h : matchLine s = some (g1, g2)) :
    g1 ⊆ s ∧ g2 ⊆ s ∧ g2 ≠ [] := by
  have hbody : ∀ (u : List Char), matchBody u = some (g1, g2) →
      g1 ⊆ u ∧ g2 ⊆ u ∧ g2 ≠ [] := fun u hu => s1Loop_sub u _ g1 g2 hu
  unfold matchLine at h
  by_cases hc : hasClassMark s
  · rw [if_pos hc] at h
    cases hB : matchBody (s.drop 4) with
    | some res =>
      rw [hB] at h
      have hh : res = (g1, g2) := Option.some.inj h
      subst hh
      rcases hbody _ hB with ⟨h1, h2, h3⟩
      exact ⟨fun x hx => List.drop_subset _ _ (h1 hx),
             fun x hx => List.drop_subset _ _ (h2 hx), h3⟩
    | none =>
      rw [hB] at h
      exact hbody s h
  · rw [if_neg hc] at h
    exact hbody s h

end MT174

namespace MT174

/-- Every token produced by the tokeniser (from a whitespace-free running
accumulator) is nonempty and whitespace-free. -/
theorem wordsAux_sound :
    ∀ (l acc : List Char), (∀ c ∈ acc, pyIsSpace c = false) →
    ∀ t ∈ wordsAux l acc, t ≠ [] ∧ ∀ c ∈ t, pyIsSpace c = false := by
  intro l
  induction l with
  | nil =>
    intro acc hacc t ht
    by_cases h : acc = []
    · simp [wordsAux, h] at ht
    · simp only [wordsAux, if_neg h, List.mem_singleton] at ht
      subst ht
      exact ⟨h, hacc⟩
  | cons c cs ih =>
    intro acc hacc t ht
    by_cases hsp : pyIsSpace c
    · by_cases h : acc = []
      · simp only [wordsAux, if_pos hsp, if_pos h] at ht
        exact ih [] (by simp) t ht
      · simp only [wordsAux, if_pos hsp, if_neg h, List.mem_cons] at ht
        rcases ht with ht | ht
        · subst ht; exact ⟨h, hacc⟩
        · exact ih [] (by simp) t ht
    · have hsp2 : pyIsSpace c = false := by
        simpa using hsp
      simp only [wordsAux, hsp2, Bool.false_eq_true, if_false] at ht
      refine ih (acc ++ [c]) ?_ t ht
      intro x hx
      rcases List.mem_append.mp hx with hx | hx
      · exact hacc x hx
      · have : x = c := by simpa using hx
        rw [this]; exact hsp2

/-- Every token of `words` is nonempty and whitespace-free. -/
theorem words_sound (l : List Char) :
    ∀ t ∈ words l, t ≠ [] ∧ ∀ c ∈ t, pyIsSpace c = false :=
  wordsAux_sound l [] (by intro c hc; cases hc)

/-- A pair in a dict after an assignment was in the dict before or is the
assigned pair. -/
theorem mem_dictInsert (q : String × String) (d : List (String × String))
    (k v : String) (h : q ∈ dictInsert d k v) : q ∈ d ∨ q = (k, v) := by
  induction d with
  | nil =>
    simp [dictInsert] at h
    exact Or.inr h
  | cons p d ih =>
    obtain ⟨k1, v1⟩ := p
    by_cases h1 : k1 = k
    · rw [dictInsert, if_pos h1] at h
      rcases List.mem_cons.mp h with h2 | h2
      · exact Or.inr h2
      · exact Or.inl (List.mem_cons_of_mem _ h2)
    · rw [dictInsert, if_neg h1] at h
      rcases List.mem_cons.mp h with h2 | h2
      · exact Or.inl (by rw [h2]; exact List.mem_cons_self _ _)
      · rcases ih h2 with h3 | h3
        · exact Or.inl (List.mem_cons_of_mem _ h3)
        · exact Or.inr h3

/-- A pair in the dict built by folding assignments came from the initial
dict or from the assigned pairs. -/
theorem mem_foldl_dictInsert (q : String × String) :
    ∀ (ps : List (String × String)) (d : List (String × String)),
    q ∈ ps.foldl (fun dd p => dictInsert dd p.1 p.2) d → q ∈ d ∨ q ∈ ps := by
  intro ps
  induction ps with
  | nil => intro d h; exact Or.inl h
  | cons p ps ih =>
    intro d h
    simp only [List.foldl_cons] at h
    rcases ih (dictInsert d p.1 p.2) h with h1 | h1
    · rcases mem_dictInsert q d p.1 p.2 h1 with h2 | h2
      · exact Or.inl h2
      · exact Or.inr (by rw [h2]; exact List.mem_cons_self _ _)
    · exact Or.inr (List.mem_cons_of_mem _ h1)

/-- Every capture pair of a matching token has a nonempty value and
whitespace-free code and value. -/
theorem matchedPairs_mem (data : String) (q : String × String)
    (h : q ∈ matchedPairs data) :
    q.2 ≠ "" ∧ (∀ c ∈ q.1.toList, pyIsSpace c = false) ∧
    (∀ c ∈ q.2.toList, pyIsSpace c = false) := by
  unfold matchedPairs at h
  rcases List.mem_filterMap.mp h with ⟨tok, htok, hmap⟩
  rcases Option.map_eq_some'.mp hmap with ⟨p, hp, hq⟩
  obtain ⟨g1, g2⟩ := p
  rcases matchLine_sub tok g1 g2 hp with ⟨h1, h2, h3⟩
  rcases words_sound data.toList tok htok with ⟨_, hws⟩
  rw [← hq]
  refine ⟨?_, ?_, ?_⟩
  · intro hemp
    apply h3
    have := congrArg String.data hemp
    simpa using this
  · intro c hc
    have hcg : c ∈ g1 := by simpa using hc
    exact hws c (h1 hcg)
  · intro c hc
    have hcg : c ∈ g2 := by simpa using hc
    exact hws c (h2 hcg)

/-- C10: every entry of the mapping returned by `datablock_to_dict` has a
nonempty value, and neither the code nor the value contains any whitespace
character (the input is tokenised on all whitespace and the value group
requires at least one character); the empty string maps to the empty
mapping. -/
theorem datablock_entries_wf (data : String) :
    (∀ q ∈ datablock_to_dict data,
      q.2 ≠ "" ∧ (∀ c ∈ q.1.toList, pyIsSpace c = false) ∧
      (∀ c ∈ q.2.toList, pyIsSpace c = false)) ∧
    datablock_to_dict ("") = [] := by
  constructor
  · intro q hq
    have hq2 : q ∈ matchedPairs data := by
      unfold datablock_to_dict at hq
      rw [datablock_fold_eq] at hq
      rcases mem_foldl_dictInsert q _ [] hq with h | h
      · cases h
      · exact h
    exact matchedPairs_mem data q hq2
  · rfl

/-- Witness for C10: a concrete entry of the sample block mapping, with its
nonempty whitespace-free value. -/
theorem datablock_entries_wf_spot :
    (("2.8.0", "33*kWh") ∈ datablock_to_dict sampleBlock) ∧
    ("33*kWh" : String) ≠ "" :=
  ⟨by decide, ((datablock_entries_wf sampleBlock).1 ("2.8.0", "33*kWh") (by decide)).1⟩

/-- C2 counterexample: on the payload made of the two quoted lines,
`datablock_to_dict` produces the empty mapping — no code is captured at all,
in particular none with value `""`. -/
theorem empty_value_lines_refuted :
    datablock_to_dict ("0-0:C.51.4*255()\n0-0:C.51.4*01()") = [] ∧
    lookupVal ("C.51.4") (datablock_to_dict ("0-0:C.51.4*255()\n0-0:C.51.4*01()")) ≠
      some ("") := by
  exact ⟨by decide, by decide⟩

/-- C2 (amended): neither `0-0:C.51.4*255()` nor `0-0:C.51.4*01()` matches
`DATABLOCK_REGEX` — the value group `(.+)` needs at least one character, and
the `*01` suffix fits neither the optional `*255` group nor the code — so
`datablock_to_dict` skips both lines and returns the empty mapping. -/
theorem empty_value_lines_skipped :
    matchLine (("0-0:C.51.4*255()").toList) = none ∧
    matchLine (("0-0:C.51.4*01()").toList) = none ∧
    datablock_to_dict ("0-0:C.51.4*255()\n0-0:C.51.4*01()") = [] := by
  exact ⟨by decide, by decide, by decide⟩

/-- Round-trip sanity check from the specification: the sample line yields
code 1.8.0 and value 0692930.505*kWh. -/
theorem sample_line_roundtrip :
    (matchLine (("1-0:1.8.0*255(0692930.505*kWh)").toList)).map
        (fun p => (String.mk p.1, String.mk p.2)) =
      some ("1.8.0", "0692930.505*kWh") := by
  decide

end MT174
